import Mathlib

set_option linter.unusedVariables false

/-!
Shallow embedding of the modbus client library (Go) and verification of its
specification claims.  Bytes are modelled as `Nat` values (< 256 in the Go
wire representation); 16-bit accumulators are `Nat` values with explicit
wraparound where Go's unsigned arithmetic wraps.  Fallible receive paths
return `Except`; the stream transport's receive path additionally returns
`Option` with `none` marking an out-of-bounds slice index (a Go panic).
-/

namespace Modbus

/-- Error taxonomy, from the Go error values and the ModbusError struct. -/
inductive MError where
  | invalidResponse
  | invalidCRC
  | timeout
  | invalidSlaveID
  | invalidAddress
  | invalidQuantity
  | modbusError (functionCode : Nat) (exceptionCode : Nat)
  deriving DecidableEq, Repr

/-- Function codes, from the Go constants. -/
def FuncCodeReadCoils : Nat := 0x01
def FuncCodeReadDiscreteInputs : Nat := 0x02
def FuncCodeReadHoldingRegisters : Nat := 0x03
def FuncCodeReadInputRegisters : Nat := 0x04
def FuncCodeWriteSingleCoil : Nat := 0x05
def FuncCodeWriteSingleRegister : Nat := 0x06
def FuncCodeWriteMultipleCoils : Nat := 0x0F
def FuncCodeWriteMultipleRegisters : Nat := 0x10

/-! ## Checksum engine (crc.go) -/

/-- One inner-loop iteration of `CRC16`: shift right, conditionally XOR 0xA001. -/
def crcRound (crc : Nat) : Nat :=
  if crc &&& 0x0001 ≠ 0 then (crc >>> 1) ^^^ 0xA001 else crc >>> 1

/-- Runs `n` iterations of the inner loop (Go runs it 8 times per byte). -/
def crcRounds : Nat → Nat → Nat
  | 0, crc => crc
  | n + 1, crc => crcRounds n (crcRound crc)

/-- Per-byte step of `CRC16`: XOR the byte in, then 8 rounds. -/
def crcByteStep (crc b : Nat) : Nat := crcRounds 8 (crc ^^^ b)

/-- Model of `CRC16` from crc.go: accumulator starts at 0xFFFF, one step per byte. -/
def CRC16 (data : List Nat) : Nat := data.foldl crcByteStep 0xFFFF

/-- Model of `AppendCRC` from crc.go: append the CRC, low byte first. -/
def AppendCRC (data : List Nat) : List Nat :=
  data ++ [CRC16 data &&& 0xFF, (CRC16 data >>> 8) &&& 0xFF]

/-- Model of `CheckCRC` from crc.go: require at least 3 bytes, split off the trailing
two bytes (low byte first), recompute over the rest and compare. -/
def CheckCRC (data : List Nat) : Bool :=
  if data.length < 3 then false
  else
    let payload := data.take (data.length - 2)
    let receivedCRC := data.getD (data.length - 2) 0 ||| (data.getD (data.length - 1) 0 <<< 8)
    receivedCRC == CRC16 payload

/-! ## Data codec (client.go) -/

/-- Model of `bytesToBools` from client.go: produce `quantity` booleans, bit `i % 8` of
byte `i / 8`; indices past the data decode as false. -/
def bytesToBools (data : List Nat) (quantity : Nat) : List Bool :=
  (List.range quantity).map fun i =>
    if i / 8 < data.length then (data.getD (i / 8) 0 &&& (1 <<< (i % 8))) != 0 else false

/-- Loop body state of `boolsToBytes`: walk the values with their index,
OR-ing bit `i % 8` into byte `i / 8` of the accumulator. -/
def boolsToBytesAux (result : List Nat) (i : Nat) : List Bool → List Nat
  | [] => result
  | v :: rest =>
      boolsToBytesAux
        (if v then result.set (i / 8) (result.getD (i / 8) 0 ||| (1 <<< (i % 8))) else result)
        (i + 1) rest

/-- Model of `boolsToBytes` from client.go: pack booleans into `(len + 7) / 8` bytes. -/
def boolsToBytes (values : List Bool) : List Nat :=
  boolsToBytesAux (List.replicate ((values.length + 7) / 8) 0) 0 values

/-- Model of `bytesToUint16s` from client.go: big-endian pairs, `len / 2` registers. -/
def bytesToUint16s (data : List Nat) : List Nat :=
  (List.range (data.length / 2)).map fun i =>
    (data.getD (i * 2) 0 <<< 8) ||| data.getD (i * 2 + 1) 0

/-- Model of `uint16sToBytes` from client.go: each register as high byte then low byte. -/
def uint16sToBytes : List Nat → List Nat
  | [] => []
  | v :: rest => (v >>> 8) % 256 :: (v &&& 0xFF) % 256 :: uint16sToBytes rest

/-! ## Serial (RTU) transport receive path -/

namespace RTU

/-- The receive half of the RTU `sendRequest`, applied to the `n` bytes that
the single port read returned.  Mirrors the Go code: fewer than 4 bytes is a
timeout, then CRC check, then strip the CRC, check the slave id, detect the
exception marker, and return the payload after slave id and function code. -/
def sendRequest (resp : List Nat) (slaveID : Nat) (functionCode : Nat) :
    Except MError (List Nat) :=
  if resp.length < 4 then .error .timeout
  else if ¬ CheckCRC resp then .error .invalidCRC
  else
    let frame := resp.take (resp.length - 2)
    if frame.getD 0 0 ≠ slaveID then .error .invalidSlaveID
    else if frame.getD 1 0 = (functionCode ||| 0x80) then
      if frame.length ≥ 3 then .error (.modbusError functionCode (frame.getD 2 0))
      else .error .invalidResponse
    else .ok (frame.drop 2)

/-- Model of `RTUClient.ReadCoils`, receive side parameterised by the response bytes. -/
def ReadCoils (resp : List Nat) (slaveID address quantity : Nat) :
    Except MError (List Bool) :=
  if quantity = 0 ∨ quantity > 2000 then .error .invalidQuantity
  else
    match sendRequest resp slaveID FuncCodeReadCoils with
    | .error e => .error e
    | .ok response =>
        if response.length < 1 then .error .invalidResponse
        else .ok (bytesToBools (response.drop 1) quantity)

/-- Model of `RTUClient.ReadDiscreteInputs`, receive side. -/
def ReadDiscreteInputs (resp : List Nat) (slaveID address quantity : Nat) :
    Except MError (List Bool) :=
  if quantity = 0 ∨ quantity > 2000 then .error .invalidQuantity
  else
    match sendRequest resp slaveID FuncCodeReadDiscreteInputs with
    | .error e => .error e
    | .ok response =>
        if response.length < 1 then .error .invalidResponse
        else .ok (bytesToBools (response.drop 1) quantity)

/-- Model of `RTUClient.ReadHoldingRegisters`, receive side. -/
def ReadHoldingRegisters (resp : List Nat) (slaveID address quantity : Nat) :
    Except MError (List Nat) :=
  if quantity = 0 ∨ quantity > 125 then .error .invalidQuantity
  else
    match sendRequest resp slaveID FuncCodeReadHoldingRegisters with
    | .error e => .error e
    | .ok response =>
        if response.length < 1 then .error .invalidResponse
        else .ok (bytesToUint16s (response.drop 1))

/-- Model of `RTUClient.ReadInputRegisters`, receive side. -/
def ReadInputRegisters (resp : List Nat) (slaveID address quantity : Nat) :
    Except MError (List Nat) :=
  if quantity = 0 ∨ quantity > 125 then .error .invalidQuantity
  else
    match sendRequest resp slaveID FuncCodeReadInputRegisters with
    | .error e => .error e
    | .ok response =>
        if response.length < 1 then .error .invalidResponse
        else .ok (bytesToUint16s (response.drop 1))

/-- Model of `RTUClient.WriteMultipleCoils`: length check, then one exchange. -/
def WriteMultipleCoils (resp : List Nat) (slaveID address : Nat) (values : List Bool) :
    Except MError Unit :=
  if values.length = 0 ∨ values.length > 1968 then .error .invalidQuantity
  else
    match sendRequest resp slaveID FuncCodeWriteMultipleCoils with
    | .error e => .error e
    | .ok _ => .ok ()

/-- Model of `RTUClient.WriteMultipleRegisters`: length check, then one exchange. -/
def WriteMultipleRegisters (resp : List Nat) (slaveID address : Nat) (values : List Nat) :
    Except MError Unit :=
  if values.length = 0 ∨ values.length > 123 then .error .invalidQuantity
  else
    match sendRequest resp slaveID FuncCodeWriteMultipleRegisters with
    | .error e => .error e
    | .ok _ => .ok ()

end RTU

/-! ## Stream (TCP) transport receive path -/

namespace TCP

/-- A buffer of `n` bytes after a Go `Read` whose returned count is ignored:
the bytes actually received, zero-padded to the buffer size. -/
def padTo (l : List Nat) (n : Nat) : List Nat :=
  l.take n ++ List.replicate (n - l.length) 0

/-- Transaction id parsed from the 7-byte MBAP response header (big-endian). -/
def respTransID (header : List Nat) : Nat :=
  (header.getD 0 0 <<< 8) ||| header.getD 1 0

/-- Length field parsed from the 7-byte MBAP response header (big-endian). -/
def lenField (header : List Nat) : Nat :=
  (header.getD 4 0 <<< 8) ||| header.getD 5 0

/-- Computes `(s + 1) mod 2^32`: the Go `atomic.AddUint32` on the transaction counter. -/
def nextTransactionID (s : Nat) : Nat := (s + 1) % 4294967296

/-- Computes `uint16(s)`: the transaction id actually placed in the MBAP header. -/
def transIDOf (s : Nat) : Nat := s % 65536

/-- Value of the transaction counter after `n` calls starting from state `s0`. -/
def counterAfter (s0 : Nat) : Nat → Nat
  | 0 => s0
  | n + 1 => nextTransactionID (counterAfter s0 n)

/-- Transaction id used by call number `n` (0-based) on one client. -/
def usedTransID (s0 n : Nat) : Nat := transIDOf (counterAfter s0 (n + 1))

/-- The receive half of the TCP `sendRequest`, applied to the 7 header bytes
and the bytes available to the PDU read.  The PDU buffer has
`(length - 1) mod 2^16` bytes (uint16 arithmetic); the read count is ignored
so missing bytes stay zero.  `none` models the Go panic when the code indexes
`pduData[0]` on an empty buffer. -/
def sendRequest (transID : Nat) (header body : List Nat) (functionCode : Nat) :
    Option (Except MError (List Nat)) :=
  if respTransID header ≠ transID then some (.error .invalidResponse)
  else
    let pduLen := (lenField header + 65536 - 1) % 65536
    let pduData := padTo body pduLen
    if pduData.length = 0 then none
    else if pduData.getD 0 0 = (functionCode ||| 0x80) then
      if pduData.length ≥ 2 then
        some (.error (.modbusError functionCode (pduData.getD 1 0)))
      else some (.error .invalidResponse)
    else some (.ok (pduData.drop 1))

/-- Model of `TCPClient.ReadCoils`, receive side parameterised by header and body. -/
def ReadCoils (transID : Nat) (header body : List Nat) (slaveID address quantity : Nat) :
    Option (Except MError (List Bool)) :=
  if quantity = 0 ∨ quantity > 2000 then some (.error .invalidQuantity)
  else
    match sendRequest transID header body FuncCodeReadCoils with
    | none => none
    | some (.error e) => some (.error e)
    | some (.ok response) =>
        if response.length < 1 then some (.error .invalidResponse)
        else some (.ok (bytesToBools (response.drop 1) quantity))

/-- Model of `TCPClient.ReadDiscreteInputs`, receive side. -/
def ReadDiscreteInputs (transID : Nat) (header body : List Nat) (slaveID address quantity : Nat) :
    Option (Except MError (List Bool)) :=
  if quantity = 0 ∨ quantity > 2000 then some (.error .invalidQuantity)
  else
    match sendRequest transID header body FuncCodeReadDiscreteInputs with
    | none => none
    | some (.error e) => some (.error e)
    | some (.ok response) =>
        if response.length < 1 then some (.error .invalidResponse)
        else some (.ok (bytesToBools (response.drop 1) quantity))

/-- Model of `TCPClient.ReadHoldingRegisters`, receive side. -/
def ReadHoldingRegisters (transID : Nat) (header body : List Nat) (slaveID address quantity : Nat) :
    Option (Except MError (List Nat)) :=
  if quantity = 0 ∨ quantity > 125 then some (.error .invalidQuantity)
  else
    match sendRequest transID header body FuncCodeReadHoldingRegisters with
    | none => none
    | some (.error e) => some (.error e)
    | some (.ok response) =>
        if response.length < 1 then some (.error .invalidResponse)
        else some (.ok (bytesToUint16s (response.drop 1)))

/-- Model of `TCPClient.ReadInputRegisters`, receive side. -/
def ReadInputRegisters (transID : Nat) (header body : List Nat) (slaveID address quantity : Nat) :
    Option (Except MError (List Nat)) :=
  if quantity = 0 ∨ quantity > 125 then some (.error .invalidQuantity)
  else
    match sendRequest transID header body FuncCodeReadInputRegisters with
    | none => none
    | some (.error e) => some (.error e)
    | some (.ok response) =>
        if response.length < 1 then some (.error .invalidResponse)
        else some (.ok (bytesToUint16s (response.drop 1)))

/-- Model of `TCPClient.WriteMultipleCoils`: length check, then one exchange. -/
def WriteMultipleCoils (transID : Nat) (header body : List Nat) (slaveID address : Nat)
    (values : List Bool) : Option (Except MError Unit) :=
  if values.length = 0 ∨ values.length > 1968 then some (.error .invalidQuantity)
  else
    match sendRequest transID header body FuncCodeWriteMultipleCoils with
    | none => none
    | some (.error e) => some (.error e)
    | some (.ok _) => some (.ok ())

/-- Model of `TCPClient.WriteMultipleRegisters`: length check, then one exchange. -/
def WriteMultipleRegisters (transID : Nat) (header body : List Nat) (slaveID address : Nat)
    (values : List Nat) : Option (Except MError Unit) :=
  if values.length = 0 ∨ values.length > 123 then some (.error .invalidQuantity)
  else
    match sendRequest transID header body FuncCodeWriteMultipleRegisters with
    | none => none
    | some (.error e) => some (.error e)
    | some (.ok _) => some (.ok ())

end TCP

/-! ## Helper lemmas -/

/-- The function `padTo` always yields a buffer of exactly the requested size. -/
theorem padTo_length (l : List Nat) (n : Nat) : (TCP.padTo l n).length = n := by
  simp only [TCP.padTo, List.length_append, List.length_take, List.length_replicate]
  omega

/-- The RTU receive path never produces the quantity-validation error. -/
theorem rtu_sendRequest_ne_invalidQuantity (resp : List Nat) (slaveID fc : Nat) :
    RTU.sendRequest resp slaveID fc ≠ Except.error MError.invalidQuantity := by
  unfold RTU.sendRequest
  split
  · simp
  · split
    · simp
    · dsimp only
      split
      · simp
      · split
        · split <;> simp
        · simp

/-- The TCP receive path never produces the quantity-validation error. -/
theorem tcp_sendRequest_ne_invalidQuantity (transID : Nat) (header body : List Nat) (fc : Nat) :
    TCP.sendRequest transID header body fc ≠ some (Except.error MError.invalidQuantity) := by
  unfold TCP.sendRequest
  split
  · simp
  · dsimp only
    split
    · simp
    · split
      · split <;> simp
      · simp

/-- Operation `TCP.ReadCoils` yields the quantity error exactly for out-of-range quantities. -/
theorem tcp_ReadCoils_invalidQuantity_iff (t : Nat) (h b : List Nat) (s a q : Nat) :
    TCP.ReadCoils t h b s a q = some (Except.error MError.invalidQuantity)
      ↔ (q = 0 ∨ 2000 < q) := by
  unfold TCP.ReadCoils
  by_cases hq : q = 0 ∨ q > 2000
  · simp [hq]
  · rw [if_neg hq]
    refine iff_of_false ?_ hq
    split
    · simp
    · rename_i e heq
      have hne := tcp_sendRequest_ne_invalidQuantity t h b FuncCodeReadCoils
      rw [heq] at hne
      simpa using hne
    · split <;> simp

/-- Operation `TCP.ReadDiscreteInputs` yields the quantity error exactly when out of range. -/
theorem tcp_ReadDiscreteInputs_invalidQuantity_iff (t : Nat) (h b : List Nat) (s a q : Nat) :
    TCP.ReadDiscreteInputs t h b s a q = some (Except.error MError.invalidQuantity)
      ↔ (q = 0 ∨ 2000 < q) := by
  unfold TCP.ReadDiscreteInputs
  by_cases hq : q = 0 ∨ q > 2000
  · simp [hq]
  · rw [if_neg hq]
    refine iff_of_false ?_ hq
    split
    · simp
    · rename_i e heq
      have hne := tcp_sendRequest_ne_invalidQuantity t h b FuncCodeReadDiscreteInputs
      rw [heq] at hne
      simpa using hne
    · split <;> simp

/-- Operation `TCP.ReadHoldingRegisters` yields the quantity error exactly when out of range. -/
theorem tcp_ReadHoldingRegisters_invalidQuantity_iff (t : Nat) (h b : List Nat) (s a q : Nat) :
    TCP.ReadHoldingRegisters t h b s a q = some (Except.error MError.invalidQuantity)
      ↔ (q = 0 ∨ 125 < q) := by
  unfold TCP.ReadHoldingRegisters
  by_cases hq : q = 0 ∨ q > 125
  · simp [hq]
  · rw [if_neg hq]
    refine iff_of_false ?_ hq
    split
    · simp
    · rename_i e heq
      have hne := tcp_sendRequest_ne_invalidQuantity t h b FuncCodeReadHoldingRegisters
      rw [heq] at hne
      simpa using hne
    · split <;> simp

/-- Operation `TCP.ReadInputRegisters` yields the quantity error exactly when out of range. -/
theorem tcp_ReadInputRegisters_invalidQuantity_iff (t : Nat) (h b : List Nat) (s a q : Nat) :
    TCP.ReadInputRegisters t h b s a q = some (Except.error MError.invalidQuantity)
      ↔ (q = 0 ∨ 125 < q) := by
  unfold TCP.ReadInputRegisters
  by_cases hq : q = 0 ∨ q > 125
  · simp [hq]
  · rw [if_neg hq]
    refine iff_of_false ?_ hq
    split
    · simp
    · rename_i e heq
      have hne := tcp_sendRequest_ne_invalidQuantity t h b FuncCodeReadInputRegisters
      rw [heq] at hne
      simpa using hne
    · split <;> simp

/-- Operation `TCP.WriteMultipleCoils` yields the quantity error exactly when out of range. -/
theorem tcp_WriteMultipleCoils_invalidQuantity_iff (t : Nat) (h b : List Nat) (s a : Nat)
    (values : List Bool) :
    TCP.WriteMultipleCoils t h b s a values = some (Except.error MError.invalidQuantity)
      ↔ (values.length = 0 ∨ 1968 < values.length) := by
  unfold TCP.WriteMultipleCoils
  by_cases hq : values.length = 0 ∨ values.length > 1968
  · rw [if_pos hq]
    exact iff_of_true rfl hq
  · rw [if_neg hq]
    refine iff_of_false ?_ hq
    split
    · simp
    · rename_i e heq
      have hne := tcp_sendRequest_ne_invalidQuantity t h b FuncCodeWriteMultipleCoils
      rw [heq] at hne
      simpa using hne
    · simp

/-- Operation `TCP.WriteMultipleRegisters` yields the quantity error exactly when out of range. -/
theorem tcp_WriteMultipleRegisters_invalidQuantity_iff (t : Nat) (h b : List Nat) (s a : Nat)
    (values : List Nat) :
    TCP.WriteMultipleRegisters t h b s a values = some (Except.error MError.invalidQuantity)
      ↔ (values.length = 0 ∨ 123 < values.length) := by
  unfold TCP.WriteMultipleRegisters
  by_cases hq : values.length = 0 ∨ values.length > 123
  · rw [if_pos hq]
    exact iff_of_true rfl hq
  · rw [if_neg hq]
    refine iff_of_false ?_ hq
    split
    · simp
    · rename_i e heq
      have hne := tcp_sendRequest_ne_invalidQuantity t h b FuncCodeWriteMultipleRegisters
      rw [heq] at hne
      simpa using hne
    · simp

/-- Operation `RTU.ReadCoils` yields the quantity error exactly when out of range. -/
theorem rtu_ReadCoils_invalidQuantity_iff (resp : List Nat) (s a q : Nat) :
    RTU.ReadCoils resp s a q = Except.error MError.invalidQuantity
      ↔ (q = 0 ∨ 2000 < q) := by
  unfold RTU.ReadCoils
  by_cases hq : q = 0 ∨ q > 2000
  · simp [hq]
  · rw [if_neg hq]
    refine iff_of_false ?_ hq
    split
    · rename_i e heq
      have hne := rtu_sendRequest_ne_invalidQuantity resp s FuncCodeReadCoils
      rw [heq] at hne
      simpa using hne
    · split <;> simp

/-- Operation `RTU.ReadDiscreteInputs` yields the quantity error exactly when out of range. -/
theorem rtu_ReadDiscreteInputs_invalidQuantity_iff (resp : List Nat) (s a q : Nat) :
    RTU.ReadDiscreteInputs resp s a q = Except.error MError.invalidQuantity
      ↔ (q = 0 ∨ 2000 < q) := by
  unfold RTU.ReadDiscreteInputs
  by_cases hq : q = 0 ∨ q > 2000
  · simp [hq]
  · rw [if_neg hq]
    refine iff_of_false ?_ hq
    split
    · rename_i e heq
      have hne := rtu_sendRequest_ne_invalidQuantity resp s FuncCodeReadDiscreteInputs
      rw [heq] at hne
      simpa using hne
    · split <;> simp

/-- Operation `RTU.ReadHoldingRegisters` yields the quantity error exactly when out of range. -/
theorem rtu_ReadHoldingRegisters_invalidQuantity_iff (resp : List Nat) (s a q : Nat) :
    RTU.ReadHoldingRegisters resp s a q = Except.error MError.invalidQuantity
      ↔ (q = 0 ∨ 125 < q) := by
  unfold RTU.ReadHoldingRegisters
  by_cases hq : q = 0 ∨ q > 125
  · simp [hq]
  · rw [if_neg hq]
    refine iff_of_false ?_ hq
    split
    · rename_i e heq
      have hne := rtu_sendRequest_ne_invalidQuantity resp s FuncCodeReadHoldingRegisters
      rw [heq] at hne
      simpa using hne
    · split <;> simp

/-- Operation `RTU.ReadInputRegisters` yields the quantity error exactly when out of range. -/
theorem rtu_ReadInputRegisters_invalidQuantity_iff (resp : List Nat) (s a q : Nat) :
    RTU.ReadInputRegisters resp s a q = Except.error MError.invalidQuantity
      ↔ (q = 0 ∨ 125 < q) := by
  unfold RTU.ReadInputRegisters
  by_cases hq : q = 0 ∨ q > 125
  · simp [hq]
  · rw [if_neg hq]
    refine iff_of_false ?_ hq
    split
    · rename_i e heq
      have hne := rtu_sendRequest_ne_invalidQuantity resp s FuncCodeReadInputRegisters
      rw [heq] at hne
      simpa using hne
    · split <;> simp

/-- Operation `RTU.WriteMultipleCoils` yields the quantity error exactly when out of range. -/
theorem rtu_WriteMultipleCoils_invalidQuantity_iff (resp : List Nat) (s a : Nat)
    (values : List Bool) :
    RTU.WriteMultipleCoils resp s a values = Except.error MError.invalidQuantity
      ↔ (values.length = 0 ∨ 1968 < values.length) := by
  unfold RTU.WriteMultipleCoils
  by_cases hq : values.length = 0 ∨ values.length > 1968
  · rw [if_pos hq]
    exact iff_of_true rfl hq
  · rw [if_neg hq]
    refine iff_of_false ?_ hq
    split
    · rename_i e heq
      have hne := rtu_sendRequest_ne_invalidQuantity resp s FuncCodeWriteMultipleCoils
      rw [heq] at hne
      simpa using hne
    · simp

/-- Operation `RTU.WriteMultipleRegisters` yields the quantity error exactly when out of range. -/
theorem rtu_WriteMultipleRegisters_invalidQuantity_iff (resp : List Nat) (s a : Nat)
    (values : List Nat) :
    RTU.WriteMultipleRegisters resp s a values = Except.error MError.invalidQuantity
      ↔ (values.length = 0 ∨ 123 < values.length) := by
  unfold RTU.WriteMultipleRegisters
  by_cases hq : values.length = 0 ∨ values.length > 123
  · rw [if_pos hq]
    exact iff_of_true rfl hq
  · rw [if_neg hq]
    refine iff_of_false ?_ hq
    split
    · rename_i e heq
      have hne := rtu_sendRequest_ne_invalidQuantity resp s FuncCodeWriteMultipleRegisters
      rw [heq] at hne
      simpa using hne
    · simp

/-- Reading inside the taken part of a list sees the original list. -/
theorem getD_take (l : List Nat) (m i : Nat) (h : i < m) :
    (l.take m).getD i 0 = l.getD i 0 := by
  simp [List.getD_eq_getElem?_getD, List.getElem?_take_of_lt h]

/-- One CRC round keeps the accumulator within 16 bits. -/
theorem crcRound_lt {crc : Nat} (h : crc < 65536) : crcRound crc < 65536 := by
  have h16 : (65536 : Nat) = 2 ^ 16 := by norm_num
  have hs : crc >>> 1 < 65536 := by rw [Nat.shiftRight_one]; omega
  unfold crcRound
  split
  · rw [h16]
    exact Nat.xor_lt_two_pow (h16 ▸ hs) (by norm_num)
  · exact hs

/-- Iterated CRC rounds keep the accumulator within 16 bits. -/
theorem crcRounds_lt : ∀ (n : Nat) {crc : Nat}, crc < 65536 → crcRounds n crc < 65536
  | 0, _, h => h
  | n + 1, _, h => crcRounds_lt n (crcRound_lt h)

/-- One CRC byte step keeps the accumulator within 16 bits. -/
theorem crcByteStep_lt {crc b : Nat} (hc : crc < 65536) (hb : b < 65536) :
    crcByteStep crc b < 65536 := by
  have h16 : (65536 : Nat) = 2 ^ 16 := by norm_num
  exact crcRounds_lt 8 (h16 ▸ Nat.xor_lt_two_pow (h16 ▸ hc) (h16 ▸ hb))

/-- The CRC fold keeps the accumulator within 16 bits for byte input. -/
theorem foldl_crcByteStep_lt : ∀ (data : List Nat) (crc : Nat), crc < 65536 →
    (∀ b ∈ data, b < 256) → data.foldl crcByteStep crc < 65536
  | [], _, h, _ => h
  | b :: rest, crc, h, hb => by
    simp only [List.foldl_cons]
    exact foldl_crcByteStep_lt rest _
      (crcByteStep_lt h (by have := hb b (by simp); omega))
      (fun x hx => hb x (by simp [hx]))

/-- The `CRC16` of a byte sequence is a 16-bit value. -/
theorem CRC16_lt (data : List Nat) (hb : ∀ b ∈ data, b < 256) : CRC16 data < 65536 :=
  foldl_crcByteStep_lt data 0xFFFF (by norm_num) hb

/-- Recombining the low byte and the high byte (shifted up) of a 16-bit value
gives the value back. -/
theorem split16 {c : Nat} (h : c < 65536) :
    (c &&& 0xFF) ||| (((c >>> 8) &&& 0xFF) <<< 8) = c := by
  have h255 : (0xFF : Nat) = 2 ^ 8 - 1 := by norm_num
  apply Nat.eq_of_testBit_eq
  intro j
  simp only [Nat.testBit_or, Nat.testBit_shiftLeft, Nat.testBit_and, h255,
    Nat.testBit_two_pow_sub_one, Nat.testBit_shiftRight]
  rcases Nat.lt_or_ge j 8 with h8 | h8
  · simp [h8, Nat.not_le.mpr h8]
  · rcases Nat.lt_or_ge j 16 with h16 | h16
    · have hj : 8 + (j - 8) = j := by omega
      simp [Nat.not_lt.mpr h8, h8, hj, (by omega : j - 8 < 8)]
    · have hcj : c.testBit j = false := by
        apply Nat.testBit_lt_two_pow
        calc c < 65536 := h
          _ = 2 ^ 16 := by norm_num
          _ ≤ 2 ^ j := Nat.pow_le_pow_right (by norm_num) h16
      simp [hcj, (by omega : 8 + (j - 8) = j)]

/-- The element right after an appended pair's split point. -/
theorem getD_append_fst (x : List Nat) (a b : Nat) :
    (x ++ [a, b]).getD x.length 0 = a := by
  induction x with
  | nil => rfl
  | cons h t ih => simpa using ih

/-- The last element of a list with an appended pair. -/
theorem getD_append_snd (x : List Nat) (a b : Nat) :
    (x ++ [a, b]).getD (x.length + 1) 0 = b := by
  induction x with
  | nil => rfl
  | cons h t ih => simpa using ih

/-- Decoding two leading bytes yields one register followed by the decode of
the rest. -/
theorem bytesToUint16s_cons2 (a b : Nat) (t : List Nat) :
    bytesToUint16s (a :: b :: t) = ((a <<< 8) ||| b) :: bytesToUint16s t := by
  unfold bytesToUint16s
  have hl : (a :: b :: t).length / 2 = t.length / 2 + 1 := by
    simp only [List.length_cons]
    omega
  rw [hl, List.range_succ_eq_map]
  simp only [List.map_cons, List.map_map]
  congr 1
  apply List.map_congr_left
  intro i hi
  simp only [Function.comp_apply, Nat.succ_eq_add_one]
  have e1 : (i + 1) * 2 = i * 2 + 1 + 1 := by ring
  rw [e1]
  simp

/-- Encoding registers then decoding reproduces the original sequence. -/
theorem bytesToUint16s_uint16sToBytes : ∀ (values : List Nat),
    (∀ v ∈ values, v < 65536) → bytesToUint16s (uint16sToBytes values) = values
  | [], _ => rfl
  | v :: rest, h => by
    have hv : v < 65536 := h v (by simp)
    show bytesToUint16s ((v >>> 8) % 256 :: (v &&& 0xFF) % 256 :: uint16sToBytes rest)
        = v :: rest
    rw [bytesToUint16s_cons2,
      bytesToUint16s_uint16sToBytes rest (fun x hx => h x (by simp [hx]))]
    congr 1
    have hpow : (2 : Nat) ^ 8 = 256 := by norm_num
    have h255 : (0xFF : Nat) = 2 ^ 8 - 1 := by norm_num
    have hs : v >>> 8 < 256 := by
      rw [Nat.shiftRight_eq_div_pow, hpow]
      omega
    have hmod : (v >>> 8) % 256 = v >>> 8 := Nat.mod_eq_of_lt hs
    have hkey := split16 hv
    rw [h255, Nat.and_pow_two_sub_one_eq_mod, Nat.and_pow_two_sub_one_eq_mod, hpow,
      hmod] at hkey
    rw [hmod, h255, Nat.and_pow_two_sub_one_eq_mod, hpow,
      Nat.mod_mod_of_dvd v (dvd_refl 256), Nat.lor_comm]
    exact hkey

/-- The encoder produces two bytes per register. -/
theorem length_uint16sToBytes : ∀ (values : List Nat),
    (uint16sToBytes values).length = 2 * values.length
  | [] => rfl
  | v :: rest => by
    simp only [uint16sToBytes, List.length_cons, length_uint16sToBytes rest]
    omega

/-- For bit positions other than the one being stored, the index bookkeeping
of the packing loop on both sides of the step agrees. -/
theorem packSideBits (k j : Nat) (v : Bool) (rest : List Bool) (hjk : j ≠ k) :
    (decide (k + 1 ≤ j) && decide (j < k + 1 + rest.length)
        && rest.getD (j - (k + 1)) false)
      = (decide (k ≤ j) && decide (j < k + (rest.length + 1))
        && (v :: rest).getD (j - k) false) := by
  rcases Nat.lt_or_ge j k with h | h
  · have h1 : ¬ (k ≤ j) := by omega
    have h2 : ¬ (k + 1 ≤ j) := by omega
    simp [h1, h2]
  · have hjk' : k + 1 ≤ j := by omega
    have hsub : j - k = (j - (k + 1)) + 1 := by omega
    have he : k + 1 + rest.length = k + (rest.length + 1) := by omega
    rw [hsub, List.getD_cons_succ, he, decide_eq_true h, decide_eq_true hjk']

/-- Bit-level characterisation of the packing loop: bit `j % 8` of byte
`j / 8` of the result is the corresponding accumulator bit OR'ed with the
value the loop stores at absolute bit position `j`. -/
theorem boolsToBytesAux_testBit : ∀ (vs : List Bool) (acc : List Nat) (k : Nat),
    k + vs.length ≤ 8 * acc.length → ∀ j : Nat,
    ((boolsToBytesAux acc k vs).getD (j / 8) 0).testBit (j % 8) =
      (((acc.getD (j / 8) 0).testBit (j % 8)) ||
        (decide (k ≤ j) && decide (j < k + vs.length) && vs.getD (j - k) false))
  | [], acc, k, hle, j => by simp [boolsToBytesAux]
  | v :: rest, acc, k, hle, j => by
    have hlc : (v :: rest).length = rest.length + 1 := rfl
    rw [hlc] at hle
    cases v with
    | false =>
      simp only [boolsToBytesAux]
      rw [if_neg (by simp : ¬ (false = true)),
        boolsToBytesAux_testBit rest acc (k + 1) (by omega) j]
      by_cases hjk : j = k
      · subst hjk
        simp [(by omega : ¬ j + 1 ≤ j), Nat.sub_self]
      · rw [packSideBits k j false rest hjk, List.length_cons]
    | true =>
      simp only [boolsToBytesAux]
      rw [if_pos trivial]
      have hk8 : k / 8 < acc.length := by omega
      rw [boolsToBytesAux_testBit rest _ (k + 1)
        (by rw [List.length_set]; omega) j]
      by_cases hb : j / 8 = k / 8
      · have hset : ((acc.set (k / 8) (acc.getD (k / 8) 0 ||| (1 <<< (k % 8)))).getD
            (j / 8) 0) = acc.getD (k / 8) 0 ||| (1 <<< (k % 8)) := by
          rw [hb]
          simp [List.getD_eq_getElem?_getD, List.getElem?_set_self hk8]
        rw [hset, Nat.testBit_or, Nat.one_shiftLeft, Nat.testBit_two_pow]
        by_cases hjk : j = k
        · subst hjk
          have hlt : j < j + (rest.length + 1) := by omega
          simp [Nat.sub_self, hlt]
        · have hm : ¬ (k % 8 = j % 8) := by omega
          rw [decide_eq_false hm, Bool.or_false, hb,
            packSideBits k j true rest hjk, List.length_cons]
      · have hset : ((acc.set (k / 8) (acc.getD (k / 8) 0 ||| (1 <<< (k % 8)))).getD
            (j / 8) 0) = acc.getD (j / 8) 0 := by
          simp [List.getD_eq_getElem?_getD,
            List.getElem?_set_ne (fun he => hb he.symm)]
        rw [hset, packSideBits k j true rest (by omega), List.length_cons]

/-- The packing loop preserves the accumulator length. -/
theorem boolsToBytesAux_length : ∀ (vs : List Bool) (acc : List Nat) (k : Nat),
    (boolsToBytesAux acc k vs).length = acc.length
  | [], acc, k => rfl
  | v :: rest, acc, k => by
    simp only [boolsToBytesAux]
    rw [boolsToBytesAux_length rest _ (k + 1)]
    cases v <;> simp

/-- The function `boolsToBytes` produces `(len + 7) / 8` bytes. -/
theorem boolsToBytes_length (values : List Bool) :
    (boolsToBytes values).length = (values.length + 7) / 8 := by
  unfold boolsToBytes
  rw [boolsToBytesAux_length]
  simp

/-- Bit-level characterisation of `boolsToBytes`: bit `j % 8` of byte `j / 8`
holds value `j` when `j` is in range and false otherwise. -/
theorem boolsToBytes_testBit (values : List Bool) (j : Nat) :
    ((boolsToBytes values).getD (j / 8) 0).testBit (j % 8) =
      (decide (j < values.length) && values.getD j false) := by
  unfold boolsToBytes
  rw [boolsToBytesAux_testBit values _ 0 (by simp; omega) j]
  have hz : ((List.replicate ((values.length + 7) / 8) 0).getD (j / 8) 0) = 0 := by
    rcases Nat.lt_or_ge (j / 8) ((values.length + 7) / 8) with h | h
    · simp [List.getD_eq_getElem?_getD, List.getElem?_replicate_of_lt h]
    · simp [List.getD_eq_getElem?_getD, List.getElem?_replicate,
        Nat.not_lt.mpr h]
  rw [hz]
  simp

/-- A masked-bit test equals `Nat.testBit`. -/
theorem and_shift_bne_zero (x r : Nat) : ((x &&& (1 <<< r)) != 0) = x.testBit r := by
  rw [Nat.one_shiftLeft, Nat.and_two_pow]
  cases h : x.testBit r <;> simp [h, Nat.pow_eq_zero]

/-! ## Claim theorems -/

/-- C1 (code_bug evidence): the stream transport's receive path is not total —
with a response header that declares length field 1 (and a matching
transaction id), the PDU buffer is empty and the Go code indexes
`pduData[0]` out of bounds (modelled as `none`), instead of returning an
error. -/
theorem tcp_sendRequest_length_one_panics :
    TCP.sendRequest 5 [0, 5, 0, 0, 0, 1, 1] [] 1 = none := by rfl

/-- C2 (counterexample): the checksum round-trip fails for the empty byte
sequence — `AppendCRC []` has only 2 bytes and `CheckCRC` requires at
least 3, so `CheckCRC (AppendCRC []) = false`, refuting the claim for every
byte sequence. -/
theorem crc_roundtrip_empty_fails : CheckCRC (AppendCRC []) = false := by rfl

/-- C2 (amended): for every nonempty byte sequence `x`,
`CheckCRC (AppendCRC x) = true` — `AppendCRC` appends the 16-bit CRC low
byte first, and `CheckCRC` splits off the last two bytes (low byte first),
recomputes over the remainder and compares for exact equality. -/
theorem crc_roundtrip (x : List Nat) (hne : x ≠ []) (hb : ∀ b ∈ x, b < 256) :
    CheckCRC (AppendCRC x) = true := by
  have hlt : CRC16 x < 65536 := CRC16_lt x hb
  have hx1 : 1 ≤ x.length := List.length_pos.mpr hne
  unfold CheckCRC AppendCRC
  have hlen : (x ++ [CRC16 x &&& 0xFF, (CRC16 x >>> 8) &&& 0xFF]).length = x.length + 2 := by
    simp
  rw [hlen, if_neg (by omega)]
  dsimp only
  have h2 : x.length + 2 - 2 = x.length := by omega
  have h3 : x.length + 2 - 1 = x.length + 1 := by omega
  rw [h2, h3, getD_append_fst, getD_append_snd, List.take_left, split16 hlt]
  simp

/-- Witness for C2 (amended): the round-trip holds at the concrete nonempty
byte sequence `[1, 2, 3]`. -/
theorem crc_roundtrip_witness : CheckCRC (AppendCRC [1, 2, 3]) = true :=
  crc_roundtrip [1, 2, 3] (by decide) (by decide)

/-- C3: on both transports, after framing is stripped, a first payload byte
equal to the request function code with bit 0x80 set yields the typed
exception carrying the function code and the following exception-code byte;
if no exception-code byte follows the marker, the call returns the
invalid-response error.  (For the serial transport the payload starts after
the unit-id byte, so the marker is the second frame byte and a frame of
exactly two bytes has no exception code; for the stream transport the PDU
buffer has `length - 1` bytes, so a declared length of 2 leaves no
exception-code byte.) -/
theorem exception_detection :
    (∀ resp slaveID fc, 5 ≤ resp.length → CheckCRC resp = true →
        resp.getD 0 0 = slaveID → resp.getD 1 0 = fc ||| 0x80 →
        RTU.sendRequest resp slaveID fc =
          Except.error (MError.modbusError fc (resp.getD 2 0)))
    ∧ (∀ resp slaveID fc, resp.length = 4 → CheckCRC resp = true →
        resp.getD 0 0 = slaveID → resp.getD 1 0 = fc ||| 0x80 →
        RTU.sendRequest resp slaveID fc = Except.error MError.invalidResponse)
    ∧ (∀ transID header body fc, TCP.respTransID header = transID →
        3 ≤ TCP.lenField header → TCP.lenField header < 65536 →
        (TCP.padTo body (TCP.lenField header - 1)).getD 0 0 = fc ||| 0x80 →
        TCP.sendRequest transID header body fc =
          some (Except.error (MError.modbusError fc
            ((TCP.padTo body (TCP.lenField header - 1)).getD 1 0))))
    ∧ (∀ transID header body fc, TCP.respTransID header = transID →
        TCP.lenField header = 2 →
        (TCP.padTo body 1).getD 0 0 = fc ||| 0x80 →
        TCP.sendRequest transID header body fc =
          some (Except.error MError.invalidResponse)) := by
  refine ⟨?_, ?_, ?_, ?_⟩
  · intro resp slaveID fc h5 hcrc h0 h1
    have hn4 : ¬ resp.length < 4 := by omega
    unfold RTU.sendRequest
    rw [if_neg hn4, if_neg (by simp [hcrc])]
    dsimp only
    rw [getD_take _ _ 0 (by omega), h0, if_neg (not_not_intro rfl)]
    rw [getD_take _ _ 1 (by omega), h1, if_pos rfl]
    rw [if_pos (by simp only [List.length_take]; omega)]
    rw [getD_take _ _ 2 (by omega)]
  · intro resp slaveID fc h4 hcrc h0 h1
    have hn4 : ¬ resp.length < 4 := by omega
    unfold RTU.sendRequest
    rw [if_neg hn4, if_neg (by simp [hcrc])]
    dsimp only
    rw [getD_take _ _ 0 (by omega), h0, if_neg (not_not_intro rfl)]
    rw [getD_take _ _ 1 (by omega), h1, if_pos rfl]
    rw [if_neg (by simp only [List.length_take]; omega)]
  · intro transID header body fc ht h3 hlt h0
    unfold TCP.sendRequest
    rw [if_neg (not_not_intro ht)]
    dsimp only
    have hplen : (TCP.lenField header + 65536 - 1) % 65536 = TCP.lenField header - 1 := by
      omega
    rw [hplen, if_neg (by rw [padTo_length]; omega), if_pos h0,
      if_pos (by rw [padTo_length]; omega)]
  · intro transID header body fc ht h2 h0
    unfold TCP.sendRequest
    rw [if_neg (not_not_intro ht)]
    dsimp only
    rw [h2]
    have hplen : (2 + 65536 - 1) % 65536 = 1 := by norm_num
    rw [hplen, if_neg (by rw [padTo_length]; omega), if_pos h0,
      if_neg (by rw [padTo_length]; omega)]

/-- Witness for C3: the spec's scenario — serial frame
`[0x01, 0x81, 0x02]` plus its checksum, for unit 1 and request function
code 1, decodes to the application error with function code 1 and exception
code 2. -/
theorem exception_detection_witness :
    RTU.sendRequest [1, 129, 2, 193, 145] 1 1 =
      Except.error (MError.modbusError 1 2) :=
  exception_detection.1 [1, 129, 2, 193, 145] 1 1 (by decide) (by decide)
    (by decide) (by decide)

/-- C4: every bounded operation, on both transports, returns the invalid
quantity error exactly when its bound is violated, and it does so before any
channel I/O: in the violated case the result is the same for every possible
channel response (the response parameters are universally quantified on both
sides of each equivalence).  Bounds: 2000 for coil/discrete-input reads, 125
for register reads, 1968 for multiple-coil writes, 123 for multiple-register
writes. -/
theorem quantity_validation :
    (∀ t h b s a q, TCP.ReadCoils t h b s a q = some (Except.error MError.invalidQuantity)
        ↔ (q = 0 ∨ 2000 < q))
    ∧ (∀ t h b s a q, TCP.ReadDiscreteInputs t h b s a q =
          some (Except.error MError.invalidQuantity) ↔ (q = 0 ∨ 2000 < q))
    ∧ (∀ t h b s a q, TCP.ReadHoldingRegisters t h b s a q =
          some (Except.error MError.invalidQuantity) ↔ (q = 0 ∨ 125 < q))
    ∧ (∀ t h b s a q, TCP.ReadInputRegisters t h b s a q =
          some (Except.error MError.invalidQuantity) ↔ (q = 0 ∨ 125 < q))
    ∧ (∀ t h b s a values, TCP.WriteMultipleCoils t h b s a values =
          some (Except.error MError.invalidQuantity)
        ↔ (values.length = 0 ∨ 1968 < values.length))
    ∧ (∀ t h b s a values, TCP.WriteMultipleRegisters t h b s a values =
          some (Except.error MError.invalidQuantity)
        ↔ (values.length = 0 ∨ 123 < values.length))
    ∧ (∀ resp s a q, RTU.ReadCoils resp s a q = Except.error MError.invalidQuantity
        ↔ (q = 0 ∨ 2000 < q))
    ∧ (∀ resp s a q, RTU.ReadDiscreteInputs resp s a q = Except.error MError.invalidQuantity
        ↔ (q = 0 ∨ 2000 < q))
    ∧ (∀ resp s a q, RTU.ReadHoldingRegisters resp s a q = Except.error MError.invalidQuantity
        ↔ (q = 0 ∨ 125 < q))
    ∧ (∀ resp s a q, RTU.ReadInputRegisters resp s a q = Except.error MError.invalidQuantity
        ↔ (q = 0 ∨ 125 < q))
    ∧ (∀ resp s a values, RTU.WriteMultipleCoils resp s a values =
          Except.error MError.invalidQuantity
        ↔ (values.length = 0 ∨ 1968 < values.length))
    ∧ (∀ resp s a values, RTU.WriteMultipleRegisters resp s a values =
          Except.error MError.invalidQuantity
        ↔ (values.length = 0 ∨ 123 < values.length)) :=
  ⟨tcp_ReadCoils_invalidQuantity_iff, tcp_ReadDiscreteInputs_invalidQuantity_iff,
   tcp_ReadHoldingRegisters_invalidQuantity_iff, tcp_ReadInputRegisters_invalidQuantity_iff,
   tcp_WriteMultipleCoils_invalidQuantity_iff, tcp_WriteMultipleRegisters_invalidQuantity_iff,
   rtu_ReadCoils_invalidQuantity_iff, rtu_ReadDiscreteInputs_invalidQuantity_iff,
   rtu_ReadHoldingRegisters_invalidQuantity_iff, rtu_ReadInputRegisters_invalidQuantity_iff,
   rtu_WriteMultipleCoils_invalidQuantity_iff, rtu_WriteMultipleRegisters_invalidQuantity_iff⟩

/-- Witness for C4: quantity 0 is rejected by a TCP coil read even on an empty
channel; quantity 2001 is rejected likewise; quantity 126 is rejected by an
RTU register read; a legal quantity of 10 is not rejected. -/
theorem quantity_validation_witness :
    TCP.ReadCoils 0 [] [] 1 0 0 = some (Except.error MError.invalidQuantity)
    ∧ TCP.ReadCoils 0 [] [] 1 0 2001 = some (Except.error MError.invalidQuantity)
    ∧ RTU.ReadHoldingRegisters [] 1 0 126 = Except.error MError.invalidQuantity
    ∧ ¬ RTU.ReadCoils [] 1 0 10 = Except.error MError.invalidQuantity :=
  ⟨(quantity_validation.1 0 [] [] 1 0 0).mpr (by decide),
   (quantity_validation.1 0 [] [] 1 0 2001).mpr (by decide),
   ((quantity_validation.2.2.2.2.2.2.2.2.1) [] 1 0 126).mpr (by decide),
   fun hc => by
     have := ((quantity_validation.2.2.2.2.2.2.1) [] 1 0 10).mp hc
     omega⟩

/-- C9: encoding a sequence of 16-bit register values with `uint16sToBytes`
(big-endian, high byte first, two bytes per register) and decoding with
`bytesToUint16s` reproduces the original sequence; the decoder consumes
exactly `len / 2` registers from any byte sequence. -/
theorem registers_roundtrip (values : List Nat) (h : ∀ v ∈ values, v < 65536) :
    bytesToUint16s (uint16sToBytes values) = values
    ∧ (uint16sToBytes values).length = 2 * values.length
    ∧ (∀ data : List Nat, (bytesToUint16s data).length = data.length / 2) :=
  ⟨bytesToUint16s_uint16sToBytes values h, length_uint16sToBytes values,
   fun data => by simp [bytesToUint16s]⟩

/-- Witness for C9: round-trip at the concrete register sequence
`[1, 65535, 4660]`. -/
theorem registers_roundtrip_witness :
    bytesToUint16s (uint16sToBytes [1, 65535, 4660]) = [1, 65535, 4660] :=
  (registers_roundtrip [1, 65535, 4660] (by decide)).1

/-- C8: packing a boolean sequence with `boolsToBytes` and unpacking with
`bytesToBools` at the same quantity reproduces the original sequence; the
packed form has `(len + 7) / 8` bytes, bit `i % 8` of byte `i / 8` holds
element `i`, and all bits at positions at or beyond the sequence length
(in particular the unused high bits of the final byte) are zero. -/
theorem bits_roundtrip (values : List Bool) :
    bytesToBools (boolsToBytes values) values.length = values
    ∧ (boolsToBytes values).length = (values.length + 7) / 8
    ∧ (∀ i, i < values.length →
        ((boolsToBytes values).getD (i / 8) 0).testBit (i % 8) = values.getD i false)
    ∧ (∀ i, values.length ≤ i →
        ((boolsToBytes values).getD (i / 8) 0).testBit (i % 8) = false) := by
  refine ⟨?_, boolsToBytes_length values, ?_, ?_⟩
  · apply List.ext_getElem
    · simp [bytesToBools]
    · intro i h1 h2
      simp only [bytesToBools, List.getElem_map, List.getElem_range]
      have hib : i / 8 < (boolsToBytes values).length := by
        rw [boolsToBytes_length]
        omega
      rw [if_pos hib, and_shift_bne_zero, boolsToBytes_testBit,
        decide_eq_true h2, Bool.true_and, List.getD_eq_getElem?_getD,
        List.getElem?_eq_getElem h2]
      rfl
  · intro i h
    rw [boolsToBytes_testBit, decide_eq_true h, Bool.true_and]
  · intro i h
    rw [boolsToBytes_testBit, decide_eq_false (by omega), Bool.false_and]

/-- Witness for C8: round-trip at the concrete bit sequence
`[true, false, true]`. -/
theorem bits_roundtrip_witness :
    bytesToBools (boolsToBytes [true, false, true]) 3 = [true, false, true] :=
  (bits_roundtrip [true, false, true]).1

/-- C10: `bytesToBools` always returns exactly `quantity` booleans and decodes
every bit position beyond the received data bytes as false; consequently a
coil/discrete-input read that reaches decoding with a non-empty success
payload returns `quantity` booleans with no error even when the payload
carries fewer data bytes than `quantity` bits require, on both transports. -/
theorem short_payload_lenient_decode :
    (∀ data quantity, (bytesToBools data quantity).length = quantity)
    ∧ (∀ data quantity i, i < quantity → data.length ≤ i / 8 →
        (bytesToBools data quantity).getD i false = false)
    ∧ (∀ resp slaveID address quantity payload, quantity ≠ 0 → quantity ≤ 2000 →
        RTU.sendRequest resp slaveID FuncCodeReadCoils = Except.ok payload →
        payload ≠ [] →
        RTU.ReadCoils resp slaveID address quantity =
          Except.ok (bytesToBools (payload.drop 1) quantity))
    ∧ (∀ resp slaveID address quantity payload, quantity ≠ 0 → quantity ≤ 2000 →
        RTU.sendRequest resp slaveID FuncCodeReadDiscreteInputs = Except.ok payload →
        payload ≠ [] →
        RTU.ReadDiscreteInputs resp slaveID address quantity =
          Except.ok (bytesToBools (payload.drop 1) quantity))
    ∧ (∀ transID header body slaveID address quantity payload,
        quantity ≠ 0 → quantity ≤ 2000 →
        TCP.sendRequest transID header body FuncCodeReadCoils = some (Except.ok payload) →
        payload ≠ [] →
        TCP.ReadCoils transID header body slaveID address quantity =
          some (Except.ok (bytesToBools (payload.drop 1) quantity)))
    ∧ (∀ transID header body slaveID address quantity payload,
        quantity ≠ 0 → quantity ≤ 2000 →
        TCP.sendRequest transID header body FuncCodeReadDiscreteInputs =
          some (Except.ok payload) →
        payload ≠ [] →
        TCP.ReadDiscreteInputs transID header body slaveID address quantity =
          some (Except.ok (bytesToBools (payload.drop 1) quantity))) := by
  refine ⟨?_, ?_, ?_, ?_, ?_, ?_⟩
  · intro data quantity
    simp [bytesToBools]
  · intro data quantity i hi hlen
    have h1 : i < (bytesToBools data quantity).length := by
      simp [bytesToBools]
      omega
    rw [List.getD_eq_getElem?_getD, List.getElem?_eq_getElem h1]
    simp only [Option.getD_some, bytesToBools, List.getElem_map, List.getElem_range]
    rw [if_neg (by omega)]
  · intro resp slaveID address quantity payload hq0 hq2000 hsr hne
    have hp : ¬ payload.length < 1 := by
      have := List.length_pos.mpr hne
      omega
    unfold RTU.ReadCoils
    rw [if_neg (by omega), hsr]
    simp [hp]
  · intro resp slaveID address quantity payload hq0 hq2000 hsr hne
    have hp : ¬ payload.length < 1 := by
      have := List.length_pos.mpr hne
      omega
    unfold RTU.ReadDiscreteInputs
    rw [if_neg (by omega), hsr]
    simp [hp]
  · intro transID header body slaveID address quantity payload hq0 hq2000 hsr hne
    have hp : ¬ payload.length < 1 := by
      have := List.length_pos.mpr hne
      omega
    unfold TCP.ReadCoils
    rw [if_neg (by omega), hsr]
    simp [hp]
  · intro transID header body slaveID address quantity payload hq0 hq2000 hsr hne
    have hp : ¬ payload.length < 1 := by
      have := List.length_pos.mpr hne
      omega
    unfold TCP.ReadDiscreteInputs
    rw [if_neg (by omega), hsr]
    simp [hp]

set_option maxRecDepth 40000 in
/-- Witness for C10: a CRC-valid serial coil response whose byte-count byte
announces 2 data bytes but which carries only one (0xFF), read with
quantity 16: the call succeeds with 16 booleans, the 8 bits of the received
byte and 8 padded false bits. -/
theorem short_payload_lenient_decode_witness :
    RTU.ReadCoils [1, 1, 2, 255, 17, 56] 1 0 16 =
      Except.ok [true, true, true, true, true, true, true, true,
        false, false, false, false, false, false, false, false] :=
  (short_payload_lenient_decode.2.2.1) [1, 1, 2, 255, 17, 56] 1 0 16 [2, 255]
    (by decide) (by decide) (by rfl) (by decide)

/-- C5: in the serial receive path, fewer than 4 received bytes is a timeout
error, and otherwise a checksum mismatch is an invalid-CRC error regardless of
the payload content (slave-id check and exception detection run only when the
checksum verifies). -/
theorem rtu_receive_framing :
    (∀ resp slaveID fc, resp.length < 4 →
        RTU.sendRequest resp slaveID fc = Except.error MError.timeout)
    ∧ (∀ resp slaveID fc, 4 ≤ resp.length → CheckCRC resp = false →
        RTU.sendRequest resp slaveID fc = Except.error MError.invalidCRC) := by
  constructor
  · intro resp slaveID fc h
    simp [RTU.sendRequest, h]
  · intro resp slaveID fc h hcrc
    simp [RTU.sendRequest, Nat.not_lt.mpr h, hcrc]

/-- Witness for C5: a 3-byte response times out; a 5-byte response whose
trailing checksum is wrong yields the CRC error. -/
theorem rtu_receive_framing_witness :
    RTU.sendRequest [1, 2, 3] 1 1 = Except.error MError.timeout
    ∧ RTU.sendRequest [1, 129, 2, 0, 0] 1 1 = Except.error MError.invalidCRC :=
  ⟨rtu_receive_framing.1 [1, 2, 3] 1 1 (by decide),
   rtu_receive_framing.2 [1, 129, 2, 0, 0] 1 1 (by decide) (by decide)⟩

/-- C6: if the transaction id parsed from the stream response header differs
from the one sent, the call fails with the invalid-response framing error, for
every response body. -/
theorem tcp_transaction_id_mismatch (transID : Nat) (header body : List Nat) (fc : Nat)
    (h : TCP.respTransID header ≠ transID) :
    TCP.sendRequest transID header body fc = some (Except.error MError.invalidResponse) := by
  simp [TCP.sendRequest, h]

/-- Witness for C6: a response correlating to id 1 answered to a request sent
with id 7 is rejected even though its payload is well-formed. -/
theorem tcp_transaction_id_mismatch_witness :
    TCP.sendRequest 7 [0, 1, 0, 0, 0, 3, 1] [1, 2, 255] 1 =
      some (Except.error MError.invalidResponse) :=
  tcp_transaction_id_mismatch 7 [0, 1, 0, 0, 0, 3, 1] [1, 2, 255] 1 (by decide)

/-- C7: the transaction id used by consecutive calls on one stream client
increases by exactly one modulo 2^16: the id of call `n + 1` is the id of
call `n` plus one, wrapped at 2^16, for every initial counter state. -/
theorem tcp_transID_strictly_increases (s0 n : Nat) :
    TCP.usedTransID s0 (n + 1) = (TCP.usedTransID s0 n + 1) % 65536 := by
  show TCP.transIDOf (TCP.nextTransactionID (TCP.counterAfter s0 (n + 1)))
      = (TCP.transIDOf (TCP.counterAfter s0 (n + 1)) + 1) % 65536
  unfold TCP.transIDOf TCP.nextTransactionID
  omega

end Modbus
